import Mathlib

/-!
Verification of the paperclip OpenAPI-v2 document model and schema builder.

The repository ships the crate facade (src/src/lib.rs) and the integration
test suite (src/tests/test_app.rs); the core components named by the spec
(Schema Registry, Type-to-Schema Translator, Operation Builder, Path
Aggregator, Document Assembler) live in the sub-crates paperclip-core,
paperclip-actix and paperclip-macros, which are not part of the sources
here.  The definitions below therefore model those components from the
spec (sections 3 and 4), with every concrete behaviour pinned to the
expected JSON documents asserted in src/tests/test_app.rs.
-/

namespace Paperclip

/-- Modelled from the spec: the `SchemaNode` record of section 3 (the
schema-builder itself is in the paperclip-core sub-crate, absent from
src/).  A node carries an optional `type`, optional `format`, `items`
(for arrays), `additionalProperties` (for maps), an ordered `properties`
map, a `required` name list, an `enum` variant list and an optional
`$ref` pointer.  There is no nullable marker of any kind. -/
inductive SchemaNode : Type where
  | node (ty : Option String) (format : Option String)
      (items : Option SchemaNode) (addProps : Option SchemaNode)
      (properties : List (String × SchemaNode))
      (required : List String) (enumVals : List String)
      (ref : Option String) : SchemaNode

def SchemaNode.ty : SchemaNode → Option String
  | .node t _ _ _ _ _ _ _ => t

def SchemaNode.format : SchemaNode → Option String
  | .node _ f _ _ _ _ _ _ => f

def SchemaNode.items : SchemaNode → Option SchemaNode
  | .node _ _ i _ _ _ _ _ => i

def SchemaNode.addProps : SchemaNode → Option SchemaNode
  | .node _ _ _ a _ _ _ _ => a

def SchemaNode.properties : SchemaNode → List (String × SchemaNode)
  | .node _ _ _ _ p _ _ _ => p

def SchemaNode.required : SchemaNode → List String
  | .node _ _ _ _ _ r _ _ => r

def SchemaNode.enumVals : SchemaNode → List String
  | .node _ _ _ _ _ _ e _ => e

def SchemaNode.refOf : SchemaNode → Option String
  | .node _ _ _ _ _ _ _ r => r

/-- The empty "any" schema `{}`: no type, no structure. -/
def emptySchema : SchemaNode := .node none none none none [] [] [] none

/-- A pure reference node `{"$ref": "#/definitions/<name>"}`. -/
def refSchema (name : String) : SchemaNode :=
  .node none none none none [] [] [] (some ("#/definitions/" ++ name))

/-- An inline primitive schema with a `type` and an optional `format`. -/
def primSchema (ty : String) (format : Option String) : SchemaNode :=
  .node (some ty) format none none [] [] [] none

/-- An array schema: `type: array` with `items`. -/
def arraySchema (inner : SchemaNode) : SchemaNode :=
  .node (some "array") none (some inner) none [] [] [] none

/-- A map schema: `type: object` with `additionalProperties`. -/
def mapSchema (inner : SchemaNode) : SchemaNode :=
  .node (some "object") none none (some inner) [] [] [] none

/-- An inline string enumeration schema. -/
def enumSchema (variants : List String) : SchemaNode :=
  .node (some "string") none none none [] [] variants none

/-- A struct body: `properties` plus `required` (no `type` key, matching
the definitions emitted in the expected documents of tests/test_app.rs). -/
def objSchema (props : List (String × SchemaNode)) (req : List String) : SchemaNode :=
  .node none none none none props req [] none

/-- Byte-wise lexicographic order on character lists. -/
def lexLe : List Char → List Char → Bool
  | [], _ => true
  | _ :: _, [] => false
  | a :: as, b :: bs =>
      if a.toNat < b.toNat then true
      else if b.toNat < a.toNat then false
      else lexLe as bs

def strLe (a b : String) : Bool := lexLe a.data b.data

/-- Insert into a list sorted by `le`. -/
def insertSorted (le : α → α → Bool) (a : α) : List α → List α
  | [] => [a]
  | b :: l => if le a b then a :: b :: l else b :: insertSorted le a l

/-- Insertion sort by a boolean relation (models the BTreeMap-backed
sorted maps used for emission). -/
def sortBy (le : α → α → Bool) : List α → List α
  | [] => []
  | a :: l => insertSorted le a (sortBy le l)

def sortStrings (l : List String) : List String := sortBy strLe l

def sortProps (l : List (String × SchemaNode)) : List (String × SchemaNode) :=
  sortBy (fun a b => strLe a.1 b.1) l

/-- Modelled from the spec: the `TypeDescriptor` input of section 3,
produced by the reflection layer (paperclip-macros, absent from src/).
`int` carries a signedness flag and a bit width; `newtype` is a
single-field tuple struct wrapper (e.g. `ImageId(u64)` in
tests/test_app.rs); `anyValue` is a free-form structured value
(`serde_json::Value` / `serde_yaml::Value`); `emptyMarker` is a
zero-field / opaque marker type; `structOf` carries the stable identity
used as deduplication key together with the ordered field list. -/
inductive TypeDescriptor : Type where
  | int (signed : Bool) (bits : Nat)
  | float (bits : Nat)
  | boolean
  | str
  | datetime
  | uuid
  | anyValue
  | emptyMarker
  | optional (inner : TypeDescriptor)
  | newtype (name : String) (inner : TypeDescriptor)
  | array (elem : TypeDescriptor)
  | mapOf (value : TypeDescriptor)
  | enumOf (name : String) (variants : List String)
  | tuple (elems : List TypeDescriptor)
  | structOf (name : String) (fields : List (String × TypeDescriptor))

def isOptional : TypeDescriptor → Bool
  | .optional _ => true
  | _ => false

/-- The names of the entries of a definitions table. -/
def defNames (l : List (String × SchemaNode)) : List String := l.map Prod.fst

/-- Modelled from the spec: the Schema Registry state of section 4.1
(implemented in paperclip-core, absent from src/): finalized
definitions (name to body) plus the set of identities whose body is
still being built (the cycle-breaking in-progress flags). -/
structure Registry : Type where
  defs : List (String × SchemaNode)
  inProgress : List String

def emptyRegistry : Registry := ⟨[], []⟩

def hasDef (reg : Registry) (name : String) : Bool :=
  (defNames reg.defs).contains name

/-- Integer format by bit width; signedness plays no role. -/
def intFormat (bits : Nat) : String := if bits ≤ 32 then "int32" else "int64"

def floatFormat (bits : Nat) : String := if bits ≤ 32 then "float" else "double"

/-- `required` = names of the fields whose type is not `Optional`,
kept sorted (the registry stores them in a BTreeSet). -/
def requiredOf (fields : List (String × TypeDescriptor)) : List String :=
  sortStrings ((fields.filter (fun f => !isOptional f.2)).map Prod.fst)

mutual

/-- Modelled from the spec: the Type-to-Schema Translator of section 4.2
together with the Registry's `register` of section 4.1 (both implemented
in paperclip-core, absent from src/).  Integer widths map to
`type: integer` with `format` int32/int64 by bit width; floats to
`type: number`; `String` to `type: string` with no format; date-time
and UUID values to `type: string` with the matching format; free-form
values and opaque markers degrade to the empty "any" schema; `Optional`
and single-field tuple structs (newtypes) are transparent; arrays and
maps wrap the translated element; enums are inlined as string
enumerations; struct-like named types are registered under their display
name and replaced by a `$ref`, with at-most-once construction per
identity and the in-progress set breaking recursive cycles. -/
def translate : TypeDescriptor → Registry → SchemaNode × Registry
  | .int _ bits, reg => (primSchema "integer" (some (intFormat bits)), reg)
  | .float bits, reg => (primSchema "number" (some (floatFormat bits)), reg)
  | .boolean, reg => (primSchema "boolean" none, reg)
  | .str, reg => (primSchema "string" none, reg)
  | .datetime, reg => (primSchema "string" (some "date-time"), reg)
  | .uuid, reg => (primSchema "string" (some "uuid"), reg)
  | .anyValue, reg => (emptySchema, reg)
  | .emptyMarker, reg => (emptySchema, reg)
  | .optional t, reg => translate t reg
  | .newtype _ t, reg => translate t reg
  | .array t, reg =>
      let r := translate t reg
      (arraySchema r.1, r.2)
  | .mapOf t, reg =>
      let r := translate t reg
      (mapSchema r.1, r.2)
  | .enumOf _ vs, reg => (enumSchema vs, reg)
  | .tuple _, reg => (emptySchema, reg)
  | .structOf name fields, reg =>
      if hasDef reg name || reg.inProgress.contains name then (refSchema name, reg)
      else
        let reg1 : Registry := ⟨reg.defs, name :: reg.inProgress⟩
        let pr := translateFields fields reg1
        let body := objSchema (sortProps pr.1) (requiredOf fields)
        (refSchema name, ⟨pr.2.defs ++ [(name, body)], pr.2.inProgress.erase name⟩)

/-- Translate the fields of a struct in declaration order, threading the
registry through each field translation. -/
def translateFields : List (String × TypeDescriptor) → Registry → List (String × SchemaNode) × Registry
  | [], reg => ([], reg)
  | f :: rest, reg =>
      let r := translate f.2 reg
      let rs := translateFields rest r.2
      ((f.1, r.1) :: rs.1, rs.2)

end

/-- Modelled from the spec: the tagged parameter-source of sections 3
and 4.3 (consumed by the Operation Builder in paperclip-core, absent
from src/).  Unmanaged bindings (application data, raw requests)
contribute no parameters and are not represented. -/
inductive ParamSource : Type where
  | path
  | query
  | form
  | body

/-- Modelled from the spec: the `ParameterDescriptor` of section 3 as it
appears in the emitted document: location (`in`), name, required flag,
and either an inline `type`/`format`/`enum` or a `schema`. -/
structure Param : Type where
  location : String
  name : String
  required : Bool
  ty : Option String
  format : Option String
  enumVals : List String
  schema : Option SchemaNode

/-- Merge identity of a parameter: location, name and type (inline
type/format/enum or the schema's reference target). -/
def pkey (p : Param) : String × String × Option String × Option String × List String × Option (Option String) :=
  (p.location, p.name, p.ty, p.format, p.enumVals, p.schema.map SchemaNode.refOf)

def keyMem (p : Param) (l : List Param) : Bool :=
  l.any (fun q => pkey q == pkey p)

/-- Turn a translated field schema into a flat (non-body) parameter. -/
def flattenParam (loc : String) (n : String) (req : Bool) (s : SchemaNode) : Param :=
  { location := loc, name := n, required := req, ty := s.ty, format := s.format,
    enumVals := s.enumVals, schema := none }

/-- Expand the fields of a struct-typed path/query/form binding into one
top-level parameter per field; the location is inherited from the
binding's source and a field is required exactly when its type is not
`Optional`. -/
def expandFields (loc : String) (fields : List (String × TypeDescriptor))
    (reg : Registry) : List Param × Registry :=
  match fields with
  | [] => ([], reg)
  | f :: rest =>
      let r := translate f.2 reg
      let rs := expandFields loc rest r.2
      (flattenParam loc f.1 (!isOptional f.2) r.1 :: rs.1, rs.2)

/-- Fill path-template placeholders left-to-right with the components of
a tuple-shaped path binding; path parameters are always required. -/
def expandTuple (placeholders : List String) (ts : List TypeDescriptor)
    (reg : Registry) : List Param × Registry :=
  match placeholders, ts with
  | n :: ns, t :: rest =>
      let r := translate t reg
      let rs := expandTuple ns rest r.2
      (flattenParam "path" n true r.1 :: rs.1, rs.2)
  | _, _ => ([], reg)

/-- Modelled from the spec: parameter construction inside the Operation
Builder of section 4.3 (paperclip-core, absent from src/).  A body
binding becomes the single required `body` parameter carrying the
translated schema; struct-typed path and query bindings are expanded
field-by-field without registering the struct; a struct-typed form
binding is expanded into `formData` parameters and its definition is
also recorded in the registry (pinned by the `BadgeForm` entry expected
in tests/test_app.rs); tuple and primitive path bindings fill the
template placeholders left-to-right. -/
def buildParams (placeholders : List String) (src : ParamSource)
    (t : TypeDescriptor) (reg : Registry) : List Param × Registry :=
  match src, t with
  | .body, t =>
      let r := translate t reg
      ([{ location := "body", name := "body", required := true, ty := none,
          format := none, enumVals := [], schema := some r.1 }], r.2)
  | .form, .structOf name fields =>
      let r := translate (.structOf name fields) reg
      expandFields "formData" fields r.2
  | .path, .structOf _ fields => expandFields "path" fields reg
  | .query, .structOf _ fields => expandFields "query" fields reg
  | .path, .tuple ts => expandTuple placeholders ts reg
  | .path, t => expandTuple placeholders [t] reg
  | _, _ => ([], reg)

/-- Modelled from the spec: the `OperationRecord` of section 3 —
ordered parameter list plus the status-code to response-schema map. -/
structure Operation : Type where
  params : List Param
  responses : List (String × SchemaNode)

/-- Fold every argument binding into the operation's parameter list. -/
def buildParamsAll (placeholders : List String)
    (bindings : List (ParamSource × TypeDescriptor)) (reg : Registry) :
    List Param × Registry :=
  match bindings with
  | [] => ([], reg)
  | b :: rest =>
      let r := buildParams placeholders b.1 b.2 reg
      let rs := buildParamsAll placeholders rest r.2
      (r.1 ++ rs.1, rs.2)

/-- Modelled from the spec: the Operation Builder of section 4.3
(paperclip-core, absent from src/).  The responses map defaults to a
single `200` entry when the handler declares a schema-bearing return
type and stays empty when the return type is opaque or declares no
schema. -/
def buildOperation (placeholders : List String)
    (bindings : List (ParamSource × TypeDescriptor))
    (ret : Option TypeDescriptor) (reg : Registry) : Operation × Registry :=
  let pr := buildParamsAll placeholders bindings reg
  match ret with
  | none => ({ params := pr.1, responses := [] }, pr.2)
  | some t =>
      let r := translate t pr.2
      ({ params := pr.1, responses := [("200", r.1)] }, r.2)

/-- Modelled from the spec: the `PathItem` of section 3 — the shared
parameter list hoisted to path-item level plus the method-indexed
operations. -/
structure PathItem : Type where
  shared : List Param
  methods : List (String × Operation)

/-- When the new operation declares a parameter with the same merge key
as `p`, relax the required flag to the less restrictive of the two. -/
def mergeRequired (opParams : List Param) (p : Param) : Param :=
  match opParams.find? (fun q => pkey q == pkey p) with
  | some q => { p with required := p.required && q.required }
  | none => p

/-- The set-intersection (by merge key) of the current shared parameter
list with a new operation's parameter list, with required flags relaxed
on mismatch. -/
def intersectShared (shared opParams : List Param) : List Param :=
  (shared.filter (fun p => keyMem p opParams)).map (mergeRequired opParams)

/-- The formerly shared parameters not declared by the new operation;
they fall back into the already-registered methods' own lists. -/
def demotedParams (shared opParams : List Param) : List Param :=
  shared.filter (fun p => !keyMem p opParams)

/-- Store an operation under a method key, replacing an existing entry
for that method or appending a new one. -/
def setMethod (ms : List (String × Operation)) (m : String) (op : Operation) :
    List (String × Operation) :=
  if ms.any (fun mo => mo.1 == m) then
    ms.map (fun mo => if mo.1 == m then (m, op) else mo)
  else ms ++ [(m, op)]

/-- Modelled from the spec: the Path Aggregator step of section 4.4 for
a path that already has operations (paperclip-core, absent from src/).
The new shared list is the set-intersection (by merge key) of the
current shared list with the new operation's parameters; parameters
falling out of the shared list are demoted into every already-registered
method's own list; the new method keeps only the parameters not hoisted;
registering the same method again replaces the earlier record (pinned by
the `post` re-registration expected in tests/test_app.rs). -/
def addToItem (pi : PathItem) (method : String) (op : Operation) : PathItem :=
  let newShared := intersectShared pi.shared op.params
  { shared := newShared,
    methods :=
      setMethod
        (pi.methods.map (fun mo =>
          (mo.1, { mo.2 with params := mo.2.params ++ demotedParams pi.shared op.params })))
        method
        { op with params := op.params.filter (fun p => !keyMem p newShared) } }

/-- Modelled from the spec: the Path Aggregator of section 4.4
(paperclip-core, absent from src/).  A new path is inserted with the
first operation's parameters tentatively hoisted to path level (pinned
by the path-level `body` parameter of `/api/echo` expected in
tests/test_app.rs); a repeat path is merged with `addToItem`. -/
def addOperation (paths : List (String × PathItem)) (path method : String)
    (op : Operation) : List (String × PathItem) :=
  match paths with
  | [] => [(path, { shared := op.params, methods := [(method, { op with params := [] })] })]
  | pe :: rest =>
      if pe.1 == path then (pe.1, addToItem pe.2 method op) :: rest
      else pe :: addOperation rest path method op

/-- The seven HTTP methods a route registered without an explicit method
filter is entered under, in the order the emitted document lists them. -/
def allMethods : List String :=
  ["delete", "get", "head", "options", "patch", "post", "put"]

/-- Modelled from the spec: route registration as driven by the
framework glue (paperclip-actix, absent from src/).  A route with a
method filter registers one operation; a route without a filter
registers the same operation under all seven methods (pinned by the
`/api/random` path item expected in tests/test_app.rs). -/
def registerRoute (paths : List (String × PathItem)) (path : String)
    (methodFilter : Option String) (op : Operation) : List (String × PathItem) :=
  match methodFilter with
  | some m => addOperation paths path m op
  | none => allMethods.foldl (fun ps m => addOperation ps path m op) paths

/-- One registered route: path template, its placeholder names in
template order, an optional method filter, the managed argument
bindings, and the declared return type (`none` for opaque returns). -/
structure Route : Type where
  path : String
  placeholders : List String
  methodFilter : Option String
  bindings : List (ParamSource × TypeDescriptor)
  ret : Option TypeDescriptor

/-- The build-phase state: the registry plus the aggregated paths. -/
structure AppState : Type where
  reg : Registry
  paths : List (String × PathItem)

def addRoute (st : AppState) (r : Route) : AppState :=
  let opr := buildOperation r.placeholders r.bindings r.ret st.reg
  { reg := opr.2, paths := registerRoute st.paths r.path r.methodFilter opr.1 }

/-- Modelled from the spec: the Document Assembler's build phase of
section 4.5 — routes are folded serially into one state. -/
def buildApp (routes : List Route) : AppState :=
  routes.foldl addRoute ⟨emptyRegistry, []⟩

def sortParams (ps : List Param) : List Param :=
  sortBy (fun p q => strLe p.name q.name) ps

def sortByKey (l : List (String × α)) : List (String × α) :=
  sortBy (fun a b => strLe a.1 b.1) l

def snapshotItem (pi : PathItem) : PathItem :=
  { shared := sortParams pi.shared,
    methods := sortByKey (pi.methods.map (fun mo => (mo.1, { mo.2 with params := sortParams mo.2.params }))) }

/-- Deterministically ordered definitions table, as emitted. -/
def snapshotDefs (st : AppState) : List (String × SchemaNode) :=
  sortByKey st.reg.defs

/-- Deterministically ordered paths table with sorted parameter lists,
as emitted. -/
def snapshotPaths (st : AppState) : List (String × PathItem) :=
  sortByKey (st.paths.map (fun pe => (pe.1, snapshotItem pe.2)))

/-- The `PetClass` enum of tests/test_app.rs. -/
def petClassDesc : TypeDescriptor := .enumOf "PetClass" ["Dog", "Cat", "EverythingElse"]

/-- The fields of the `Pet` struct of tests/test_app.rs:
`name: String`, `class: PetClass`, `id: Option<u64>`,
`updated: Option<NaiveDateTime>`, `uid: Option<Uuid>`. -/
def petFields : List (String × TypeDescriptor) :=
  [("name", .str), ("class", petClassDesc), ("id", .optional (.int false 64)),
   ("updated", .optional .datetime), ("uid", .optional .uuid)]

/-- The `Pet` struct of tests/test_app.rs. -/
def petDesc : TypeDescriptor := .structOf "Pet" petFields

/-- The routes of `test_simple_app` in tests/test_app.rs. -/
def simpleAppRoutes : List Route :=
  [ { path := "/api/echo", placeholders := [], methodFilter := some "post",
      bindings := [(.body, petDesc)], ret := some petDesc },
    { path := "/api/async_echo", placeholders := [], methodFilter := some "post",
      bindings := [(.body, petDesc)], ret := some petDesc },
    { path := "/api/async_echo_2", placeholders := [], methodFilter := some "post",
      bindings := [(.body, petDesc)], ret := some petDesc },
    { path := "/api/random", placeholders := [], methodFilter := none,
      bindings := [], ret := some petDesc } ]

def simpleApp : AppState := buildApp simpleAppRoutes

/-- The fields of the `KnownResourceBadge` path-parameter struct of
`test_params`: `resource: String`, `name: String`. -/
def krbFields : List (String × TypeDescriptor) := [("resource", .str), ("name", .str)]

/-- The `KnownResourceBadge` path-parameter struct of `test_params`. -/
def knownResourceBadgeDesc : TypeDescriptor := .structOf "KnownResourceBadge" krbFields

/-- The `BadgeParams` query struct of `test_params`:
`res: Option<u16>`, `color: String`. -/
def badgeParamsDesc : TypeDescriptor :=
  .structOf "BadgeParams" [("res", .optional (.int false 16)), ("color", .str)]

/-- The `BadgeBody` struct of `test_params`: two optional free-form
structured values (`serde_json::Value`, `serde_yaml::Value`). -/
def badgeBodyDesc : TypeDescriptor :=
  .structOf "BadgeBody" [("json", .optional .anyValue), ("yaml", .optional .anyValue)]

/-- The `BadgeForm` form struct of `test_params`: `data: String`. -/
def badgeFormDesc : TypeDescriptor := .structOf "BadgeForm" [("data", .str)]

/-- The routes of `test_params` in tests/test_app.rs, in registration
order. -/
def paramsAppRoutes : List Route :=
  [ { path := "/api/v1/{resource}/v/{name}", placeholders := ["resource", "name"],
      methodFilter := none,
      bindings := [(.path, knownResourceBadgeDesc), (.query, badgeParamsDesc)],
      ret := none },
    { path := "/api/v1/{resource}/v/{name}", placeholders := ["resource", "name"],
      methodFilter := some "post",
      bindings := [(.path, knownResourceBadgeDesc), (.query, badgeParamsDesc), (.form, badgeFormDesc)],
      ret := none },
    { path := "/api/v2/{resource}/v/{name}", placeholders := ["resource", "name"],
      methodFilter := some "get",
      bindings := [(.path, .tuple [.str, .str]), (.query, badgeParamsDesc)],
      ret := none },
    { path := "/api/v2/{resource}/v/{name}", placeholders := ["resource", "name"],
      methodFilter := some "post",
      bindings := [(.path, .tuple [.str, .str]), (.body, badgeBodyDesc)],
      ret := none },
    { path := "/api/v2/{resource}", placeholders := ["resource"],
      methodFilter := some "get",
      bindings := [(.path, .str)], ret := none } ]

def paramsApp : AppState := buildApp paramsAppRoutes

/-- The `ImageId(u64)` newtype of `test_map_in_out`. -/
def imageIdDesc : TypeDescriptor := .newtype "ImageId" (.int false 64)

/-- The `Image` struct of `test_map_in_out`: `data: String`,
`id: ImageId`. -/
def imageDesc : TypeDescriptor :=
  .structOf "Image" [("data", .str), ("id", imageIdDesc)]

/-- The single route of `test_map_in_out`: a handler returning
`BTreeMap<String, Image>`. -/
def mapAppRoutes : List Route :=
  [ { path := "/images", placeholders := [], methodFilter := some "get",
      bindings := [], ret := some (.mapOf imageDesc) } ]

def mapApp : AppState := buildApp mapAppRoutes

/-- The `Sort` enum of `test_list_in_out`. -/
def sortDesc : TypeDescriptor := .enumOf "Sort" ["Asc", "Desc"]

/-- The `Params` query struct of `test_list_in_out`:
`sort: Option<Sort>`, `limit: Option<u16>`. -/
def listParamsDesc : TypeDescriptor :=
  .structOf "Params" [("sort", .optional sortDesc), ("limit", .optional (.int false 16))]

/-- The single route of `test_list_in_out`: query parameters plus a
handler returning `Vec<Pet>`. -/
def listAppRoutes : List Route :=
  [ { path := "/pets", placeholders := [], methodFilter := some "get",
      bindings := [(.query, listParamsDesc)], ret := some (.array petDesc) } ]

def listApp : AppState := buildApp listAppRoutes

/-- The `Params` query struct of `test_impl_traits`:
`limit: Option<u16>`. -/
def implParamsDesc : TypeDescriptor :=
  .structOf "Params" [("limit", .optional (.int false 16))]

/-- The routes of `test_impl_traits`: three handlers returning opaque
`impl Responder` values (no declared schema) and one returning
`Vec<Pet>`. -/
def implAppRoutes : List Route :=
  [ { path := "/", placeholders := [], methodFilter := some "get",
      bindings := [], ret := none },
    { path := "/pets", placeholders := [], methodFilter := some "get",
      bindings := [(.query, implParamsDesc)], ret := some (.array petDesc) },
    { path := "/pet", placeholders := [], methodFilter := some "get",
      bindings := [], ret := none },
    { path := "/pet_async", placeholders := [], methodFilter := some "get",
      bindings := [], ret := none } ]

def implApp : AppState := buildApp implAppRoutes

/-- Registry well-formedness: the definition names together with the
in-progress identities are pairwise distinct. -/
def RegOk (reg : Registry) : Prop := (defNames reg.defs ++ reg.inProgress).Nodup

/-- The path template has no entry yet in the paths table. -/
def FreshPath (paths : List (String × PathItem)) (path : String) : Prop :=
  ∀ pe ∈ paths, pe.1 ≠ path

/-- No parameter in a method's own list shares a merge key with a
parameter of the path-item-level shared list (no duplication between
the two levels). -/
def ItemOk (pi : PathItem) : Prop :=
  ∀ mo ∈ pi.methods, ∀ p ∈ mo.2.params, ∀ q ∈ pi.shared, pkey q ≠ pkey p

/-- The `Pet` definition body asserted by `test_simple_app` (properties
in sorted key order, as the registry's map stores them). -/
def petBody : SchemaNode :=
  objSchema
    [("class", enumSchema ["Dog", "Cat", "EverythingElse"]),
     ("id", primSchema "integer" (some "int64")),
     ("name", primSchema "string" none),
     ("uid", primSchema "string" (some "uuid")),
     ("updated", primSchema "string" (some "date-time"))]
    ["class", "name"]

/-- The `Image` definition body asserted by `test_map_in_out`: the
`ImageId(u64)` newtype field appears as a plain int64 integer. -/
def imageBody : SchemaNode :=
  objSchema
    [("data", primSchema "string" none),
     ("id", primSchema "integer" (some "int64"))]
    ["data", "id"]

/-- The `BadgeBody` definition body asserted by `test_params`: both
free-form fields degrade to the empty "any" schema and neither is
required. -/
def badgeBodyNode : SchemaNode :=
  objSchema [("json", emptySchema), ("yaml", emptySchema)] []

/-- The `BadgeForm` definition body asserted by `test_params`. -/
def badgeFormNode : SchemaNode :=
  objSchema [("data", primSchema "string" none)] ["data"]

/-- A required string path parameter, as expected for expanded
placeholders. -/
def pathStrParam (n : String) : Param :=
  { location := "path", name := n, required := true, ty := some "string",
    format := none, enumVals := [], schema := none }

/-- The required `color` query parameter of `test_params`. -/
def colorParam : Param :=
  { location := "query", name := "color", required := true, ty := some "string",
    format := none, enumVals := [], schema := none }

/-- The optional `res` query parameter of `test_params`. -/
def resParam : Param :=
  { location := "query", name := "res", required := false, ty := some "integer",
    format := some "int32", enumVals := [], schema := none }

/-- The required `data` form parameter of `test_params`. -/
def dataFormParam : Param :=
  { location := "formData", name := "data", required := true, ty := some "string",
    format := none, enumVals := [], schema := none }

/-- The single required body parameter referencing a named definition. -/
def bodyRefParam (n : String) : Param :=
  { location := "body", name := "body", required := true, ty := none,
    format := none, enumVals := [], schema := some (refSchema n) }

/-- The required `id: u64` path parameter of the spec's shared-parameter
hoisting example for `/x/{id}`. -/
def idPathParam : Param :=
  { location := "path", name := "id", required := true, ty := some "integer",
    format := some "int64", enumVals := [], schema := none }

/-- The optional `q: Option<String>` query parameter of the spec's
shared-parameter hoisting example. -/
def qQueryParam : Param :=
  { location := "query", name := "q", required := false, ty := some "string",
    format := none, enumVals := [], schema := none }

/-- The operation both methods of the spec's `/x/{id}` example declare. -/
def xOp : Operation := { params := [idPathParam, qQueryParam], responses := [] }

/-- Two methods registered on `/x/{id}`, both declaring `id` and `q`. -/
def xPaths : List (String × PathItem) :=
  addOperation (addOperation [] "/x/{id}" "get" xOp) "/x/{id}" "post" xOp

/-- Unfolding equation for the struct branch of the translator. -/
theorem translate_structOf (name : String) (fields : List (String × TypeDescriptor))
    (reg : Registry) :
    translate (.structOf name fields) reg =
      if hasDef reg name || reg.inProgress.contains name then (refSchema name, reg)
      else
        (refSchema name,
          ⟨(translateFields fields ⟨reg.defs, name :: reg.inProgress⟩).2.defs ++
              [(name, objSchema (sortProps (translateFields fields ⟨reg.defs, name :: reg.inProgress⟩).1)
                (requiredOf fields))],
            (translateFields fields ⟨reg.defs, name :: reg.inProgress⟩).2.inProgress.erase name⟩) := rfl

/-- Unfolding equation for field-list translation. -/
theorem translateFields_cons (f : String × TypeDescriptor)
    (rest : List (String × TypeDescriptor)) (reg : Registry) :
    translateFields (f :: rest) reg =
      ((f.1, (translate f.2 reg).1) :: (translateFields rest (translate f.2 reg).2).1,
        (translateFields rest (translate f.2 reg).2).2) := rfl

/-- Deduplication: an identity with an entry (finalized or in progress)
translates to its reference without touching the registry. -/
theorem translate_struct_hit (name : String) (fields : List (String × TypeDescriptor))
    (reg : Registry) (h : (hasDef reg name || reg.inProgress.contains name) = true) :
    translate (.structOf name fields) reg = (refSchema name, reg) := by
  rw [translate_structOf, if_pos h]

/-- A fresh identity is marked in-progress, its fields are translated,
and the body is appended to the definitions under its name. -/
theorem translate_struct_fresh (name : String) (fields : List (String × TypeDescriptor))
    (reg : Registry) (h : (hasDef reg name || reg.inProgress.contains name) = false) :
    translate (.structOf name fields) reg =
      (refSchema name,
        ⟨(translateFields fields ⟨reg.defs, name :: reg.inProgress⟩).2.defs ++
            [(name, objSchema (sortProps (translateFields fields ⟨reg.defs, name :: reg.inProgress⟩).1)
              (requiredOf fields))],
          (translateFields fields ⟨reg.defs, name :: reg.inProgress⟩).2.inProgress.erase name⟩) := by
  have hnc : ¬ (hasDef reg name || reg.inProgress.contains name) = true := by
    rw [h]; exact Bool.false_ne_true
  rw [translate_structOf, if_neg hnc]

theorem contains_false_iff (l : List String) (name : String) :
    l.contains name = false ↔ name ∉ l := by
  rw [← Bool.not_eq_true, List.contains]
  exact not_congr List.elem_iff

theorem hasDef_false_iff (reg : Registry) (name : String) :
    hasDef reg name = false ↔ name ∉ defNames reg.defs := by
  rw [hasDef]
  exact contains_false_iff _ _

theorem triv_ok {reg2 reg : Registry} (e : reg2 = reg) (h : RegOk reg) :
    reg2.inProgress = reg.inProgress ∧
    (∃ l, reg2.defs = reg.defs ++ l ∧ ∀ n ∈ defNames l, n ∉ reg.inProgress) ∧
    RegOk reg2 := by
  subst e
  exact ⟨rfl, ⟨[], (List.append_nil _).symm, by simp [defNames]⟩, h⟩

mutual

/-- Translation restores the in-progress set, only appends definitions,
never adds a definition for an identity that was in progress, and
preserves registry well-formedness: every definition name stays unique. -/
theorem translate_ok (t : TypeDescriptor) (reg : Registry) (h : RegOk reg) :
    (translate t reg).2.inProgress = reg.inProgress ∧
    (∃ l, (translate t reg).2.defs = reg.defs ++ l ∧ ∀ n ∈ defNames l, n ∉ reg.inProgress) ∧
    RegOk (translate t reg).2 := by
  cases t with
  | optional t => exact translate_ok t reg h
  | newtype name t => exact translate_ok t reg h
  | array t => exact translate_ok t reg h
  | mapOf t => exact translate_ok t reg h
  | structOf name fields =>
      by_cases hc : (hasDef reg name || reg.inProgress.contains name) = true
      · rw [translate_struct_hit name fields reg hc]
        exact triv_ok rfl h
      · rw [Bool.not_eq_true] at hc
        rw [translate_struct_fresh name fields reg hc]
        rw [Bool.or_eq_false_iff] at hc
        have hname : name ∉ defNames reg.defs := (hasDef_false_iff reg name).mp hc.1
        have hip : name ∉ reg.inProgress := (contains_false_iff _ name).mp hc.2
        have hok1 : RegOk ⟨reg.defs, name :: reg.inProgress⟩ := by
          unfold RegOk at h ⊢
          simp only []
          rw [List.nodup_middle]
          exact List.nodup_cons.mpr ⟨by simp [hname, hip], h⟩
        obtain ⟨ip2, ⟨l, hdefs, hl⟩, hok2⟩ :=
          translateFields_ok fields ⟨reg.defs, name :: reg.inProgress⟩ hok1
        refine ⟨?_, ⟨l ++ [(name, objSchema (sortProps (translateFields fields ⟨reg.defs, name :: reg.inProgress⟩).1) (requiredOf fields))], ?_, ?_⟩, ?_⟩
        · simp only [ip2, List.erase_cons_head]
        · simp only at hdefs
          rw [hdefs, List.append_assoc]
        · intro n hn
          simp only [defNames, List.map_append, List.mem_append, List.map_cons, List.map_nil,
            List.mem_cons, List.mem_singleton] at hn
          rcases hn with hn | hn
          · have hm := hl n hn
            simp only [List.mem_cons, not_or] at hm
            exact hm.2
          · simp only [List.not_mem_nil, or_false] at hn
            subst hn; exact hip
        · unfold RegOk
          unfold RegOk at hok2
          simp only at hok2 ⊢
          rw [ip2] at hok2
          simp only [ip2, List.erase_cons_head, defNames, List.map_append]
          simp only [defNames] at hok2
          simpa [List.append_assoc] using hok2
  | int sg bits => exact triv_ok rfl h
  | float bits => exact triv_ok rfl h
  | boolean => exact triv_ok rfl h
  | str => exact triv_ok rfl h
  | datetime => exact triv_ok rfl h
  | uuid => exact triv_ok rfl h
  | anyValue => exact triv_ok rfl h
  | emptyMarker => exact triv_ok rfl h
  | enumOf name vs => exact triv_ok rfl h
  | tuple ts => exact triv_ok rfl h

/-- Field-list translation satisfies the same registry invariants. -/
theorem translateFields_ok (fs : List (String × TypeDescriptor)) (reg : Registry) (h : RegOk reg) :
    (translateFields fs reg).2.inProgress = reg.inProgress ∧
    (∃ l, (translateFields fs reg).2.defs = reg.defs ++ l ∧ ∀ n ∈ defNames l, n ∉ reg.inProgress) ∧
    RegOk (translateFields fs reg).2 := by
  cases fs with
  | nil => exact triv_ok rfl h
  | cons f rest =>
      obtain ⟨ip1, ⟨l1, hd1, hl1⟩, hok1⟩ := translate_ok f.2 reg h
      obtain ⟨ip2, ⟨l2, hd2, hl2⟩, hok2⟩ := translateFields_ok rest (translate f.2 reg).2 hok1
      have e2 : (translateFields (f :: rest) reg).2 = (translateFields rest (translate f.2 reg).2).2 := rfl
      rw [e2]
      refine ⟨ip2.trans ip1, ⟨l1 ++ l2, ?_, ?_⟩, hok2⟩
      · rw [hd2, hd1, List.append_assoc]
      · intro n hn
        simp only [defNames, List.map_append, List.mem_append] at hn
        rcases hn with hn | hn
        · exact hl1 n hn
        · have hm := hl2 n hn
          rwa [ip1] at hm

end


theorem insertSorted_perm (le : α → α → Bool) (a : α) (l : List α) :
    (insertSorted le a l).Perm (a :: l) := by
  induction l with
  | nil => simp [insertSorted]
  | cons b l ih =>
      simp only [insertSorted]
      split
      · exact List.Perm.refl _
      · exact (List.Perm.cons b ih).trans (List.Perm.swap a b l)

theorem sortBy_perm (le : α → α → Bool) (l : List α) : (sortBy le l).Perm l := by
  induction l with
  | nil => simp [sortBy]
  | cons a l ih => exact (insertSorted_perm le a (sortBy le l)).trans (List.Perm.cons a ih)

theorem translateFields_names (fs : List (String × TypeDescriptor)) (reg : Registry) :
    (translateFields fs reg).1.map Prod.fst = fs.map Prod.fst := by
  induction fs generalizing reg with
  | nil => rfl
  | cons f rest ih =>
      rw [translateFields_cons]
      simp [ih]

theorem lookup_append_right {β : Type} (l : List (String × β)) (k : String) (b : β)
    (h : ∀ e ∈ l, e.1 ≠ k) : (l ++ [(k, b)]).lookup k = some b := by
  induction l with
  | nil => simp [List.lookup]
  | cons e rest ih =>
      have hne : (k == e.1) = false := by
        rw [beq_eq_false_iff_ne]
        exact fun hk => h e (List.mem_cons_self _ _) hk.symm
      cases e with
      | mk ek ev =>
          simp only at hne
          rw [List.cons_append]
          simp only [List.lookup, hne]
          exact ih (fun e2 he2 => h e2 (List.mem_cons_of_mem _ he2))

theorem regok_push (reg : Registry) (name : String) (h : RegOk reg)
    (h2 : hasDef reg name = false) (h3 : reg.inProgress.contains name = false) :
    RegOk ⟨reg.defs, name :: reg.inProgress⟩ := by
  have hname : name ∉ defNames reg.defs := (hasDef_false_iff reg name).mp h2
  have hip : name ∉ reg.inProgress := (contains_false_iff _ name).mp h3
  unfold RegOk at h ⊢
  simp only []
  rw [List.nodup_middle]
  exact List.nodup_cons.mpr ⟨by simp [hname, hip], h⟩

theorem translate_registers_body (name : String) (fields : List (String × TypeDescriptor))
    (reg : Registry) (h1 : RegOk reg) (h2 : hasDef reg name = false)
    (h3 : reg.inProgress.contains name = false) :
    ((translate (.structOf name fields) reg).2.defs).lookup name =
      some (objSchema (sortProps (translateFields fields ⟨reg.defs, name :: reg.inProgress⟩).1)
        (requiredOf fields)) := by
  have hc : (hasDef reg name || reg.inProgress.contains name) = false := by
    rw [h2, h3]; rfl
  rw [translate_struct_fresh name fields reg hc]
  simp only []
  apply lookup_append_right
  obtain ⟨ip, ⟨l, hdefs, hl⟩, _⟩ :=
    translateFields_ok fields ⟨reg.defs, name :: reg.inProgress⟩ (regok_push reg name h1 h2 h3)
  simp only at hdefs
  rw [hdefs]
  intro e he
  rcases List.mem_append.mp he with he | he
  · have hmm : e.1 ∈ defNames reg.defs := List.mem_map_of_mem Prod.fst he
    intro hk
    rw [hk] at hmm
    exact (hasDef_false_iff reg name).mp h2 hmm
  · have hm : e.1 ∈ defNames l := List.mem_map_of_mem Prod.fst he
    have hni := hl e.1 hm
    intro hk
    rw [hk] at hni
    exact hni (List.mem_cons_self _ _)


theorem pkey_mergeRequired (ops : List Param) (p : Param) :
    pkey (mergeRequired ops p) = pkey p := by
  unfold mergeRequired
  cases h : ops.find? (fun q => pkey q == pkey p) with
  | none => rfl
  | some q => rfl

theorem keyMem_iff (p : Param) (l : List Param) :
    keyMem p l = true ↔ ∃ q ∈ l, pkey q = pkey p := by
  unfold keyMem
  rw [List.any_eq_true]
  constructor
  · rintro ⟨q, hq, he⟩
    exact ⟨q, hq, by simpa [beq_iff_eq] using he⟩
  · rintro ⟨q, hq, he⟩
    exact ⟨q, hq, by simpa [beq_iff_eq] using he⟩

theorem keyMem_false_iff (p : Param) (l : List Param) :
    keyMem p l = false ↔ ∀ q ∈ l, pkey q ≠ pkey p := by
  rw [← Bool.not_eq_true, keyMem_iff]
  simp

theorem mem_intersectShared (shared ops : List Param) (q : Param)
    (h : q ∈ intersectShared shared ops) :
    ∃ q0 ∈ shared, pkey q = pkey q0 ∧ keyMem q0 ops = true := by
  unfold intersectShared at h
  rw [List.mem_map] at h
  obtain ⟨q0, hq0, he⟩ := h
  rw [List.mem_filter] at hq0
  exact ⟨q0, hq0.1, by rw [← he, pkey_mergeRequired], hq0.2⟩

theorem mem_setMethod (ms : List (String × Operation)) (m : String) (op : Operation)
    (mo : String × Operation) (h : mo ∈ setMethod ms m op) :
    mo.2 = op ∨ mo ∈ ms := by
  unfold setMethod at h
  split at h
  · rw [List.mem_map] at h
    obtain ⟨mo0, hm0, he⟩ := h
    by_cases hc : (mo0.1 == m) = true
    · rw [if_pos hc] at he
      left
      rw [← he]
    · rw [if_neg (by simpa using hc)] at he
      right
      rwa [← he]
  · rcases List.mem_append.mp h with hin | hin
    · right; exact hin
    · left
      rw [List.mem_singleton] at hin
      rw [hin]

theorem addToItem_shared_eq (pi : PathItem) (m : String) (op : Operation) :
    (addToItem pi m op).shared = intersectShared pi.shared op.params := rfl

theorem addToItem_ok (pi : PathItem) (m : String) (op : Operation) (h : ItemOk pi) :
    ItemOk (addToItem pi m op) := by
  intro mo hmo p hp q hq
  rw [addToItem_shared_eq] at hq
  obtain ⟨q0, hq0s, hqk, hq0m⟩ := mem_intersectShared _ _ _ hq
  have hms : (addToItem pi m op).methods =
      setMethod
        (pi.methods.map (fun mo =>
          (mo.1, { mo.2 with params := mo.2.params ++ demotedParams pi.shared op.params })))
        m
        { op with params := op.params.filter (fun p => !keyMem p (intersectShared pi.shared op.params)) } := rfl
  rw [hms] at hmo
  rcases mem_setMethod _ _ _ _ hmo with he | hin
  · -- the freshly stored method: its params exclude every shared key
    rw [he] at hp
    simp only [List.mem_filter, Bool.not_eq_true'] at hp
    have hall := (keyMem_false_iff _ _).mp hp.2
    exact hall q hq
  · -- an already-registered method: old own params plus demoted params
    rw [List.mem_map] at hin
    obtain ⟨mo0, hm0, he⟩ := hin
    rw [← he] at hp
    simp only [List.mem_append] at hp
    rcases hp with hp | hp
    · have hne := h mo0 hm0 p hp q0 hq0s
      rw [hqk]
      exact hne
    · unfold demotedParams at hp
      rw [List.mem_filter] at hp
      have hall := (keyMem_false_iff _ _).mp (by simpa using hp.2)
      obtain ⟨r, hr, hre⟩ := (keyMem_iff _ _).mp hq0m
      intro hqp
      exact hall r hr (by rw [hre, ← hqk, hqp])

theorem addToItem_shared_nodup (pi : PathItem) (m : String) (op : Operation)
    (h : (pi.shared.map pkey).Nodup) :
    ((addToItem pi m op).shared.map pkey).Nodup := by
  rw [addToItem_shared_eq]
  unfold intersectShared
  rw [List.map_map]
  have he : (pi.shared.filter (fun p => keyMem p op.params)).map (pkey ∘ mergeRequired op.params) =
      (pi.shared.filter (fun p => keyMem p op.params)).map pkey := by
    apply List.map_congr_left
    intro p hp
    exact pkey_mergeRequired op.params p
  rw [he]
  exact h.sublist (List.Sublist.map pkey (List.filter_sublist _))


theorem addOperation_cons (pe : String × PathItem) (rest : List (String × PathItem))
    (path m : String) (op : Operation) :
    addOperation (pe :: rest) path m op =
      if pe.1 == path then (pe.1, addToItem pe.2 m op) :: rest
      else pe :: addOperation rest path m op := rfl

theorem addOperation_fresh (paths : List (String × PathItem)) (path m : String)
    (op : Operation) (h : FreshPath paths path) :
    addOperation paths path m op =
      paths ++ [(path, { shared := op.params, methods := [(m, { op with params := [] })] })] := by
  induction paths with
  | nil => rfl
  | cons pe rest ih =>
      have hne : ¬ (pe.1 == path) = true := by
        simp only [beq_iff_eq]
        exact h pe (List.mem_cons_self _ _)
      rw [addOperation_cons, if_neg hne,
        ih (fun e he => h e (List.mem_cons_of_mem _ he)), List.cons_append]

theorem addOperation_existing (paths : List (String × PathItem)) (path m : String)
    (op : Operation) (pi : PathItem) (h : FreshPath paths path) :
    addOperation (paths ++ [(path, pi)]) path m op = paths ++ [(path, addToItem pi m op)] := by
  induction paths with
  | nil =>
      rw [List.nil_append, List.nil_append, addOperation_cons, if_pos (by simp)]
  | cons pe rest ih =>
      have hne : ¬ (pe.1 == path) = true := by
        simp only [beq_iff_eq]
        exact h pe (List.mem_cons_self _ _)
      rw [List.cons_append, addOperation_cons, if_neg hne,
        ih (fun e he => h e (List.mem_cons_of_mem _ he)), List.cons_append]

theorem addToItem_keys (pi : PathItem) (m : String) (op : Operation)
    (h : pi.methods.any (fun mo => mo.1 == m) = false) :
    (addToItem pi m op).methods.map Prod.fst = pi.methods.map Prod.fst ++ [m] := by
  have hms : (addToItem pi m op).methods =
      setMethod
        (pi.methods.map (fun mo =>
          (mo.1, { mo.2 with params := mo.2.params ++ demotedParams pi.shared op.params })))
        m
        { op with params := op.params.filter (fun p => !keyMem p (intersectShared pi.shared op.params)) } := rfl
  rw [hms]
  unfold setMethod
  have hany : ((pi.methods.map (fun mo =>
      (mo.1, { mo.2 with params := mo.2.params ++ demotedParams pi.shared op.params }))).any
        (fun mo => mo.1 == m)) = false := by
    rw [List.any_map]
    simpa [Function.comp] using h
  rw [hany, if_neg Bool.false_ne_true]
  simp [Function.comp]

theorem addToItem_responses (pi : PathItem) (m : String) (op : Operation)
    (h : ∀ mo ∈ pi.methods, mo.2.responses = op.responses) :
    ∀ mo ∈ (addToItem pi m op).methods, mo.2.responses = op.responses := by
  intro mo hmo
  have hms : (addToItem pi m op).methods =
      setMethod
        (pi.methods.map (fun mo =>
          (mo.1, { mo.2 with params := mo.2.params ++ demotedParams pi.shared op.params })))
        m
        { op with params := op.params.filter (fun p => !keyMem p (intersectShared pi.shared op.params)) } := rfl
  rw [hms] at hmo
  rcases mem_setMethod _ _ _ _ hmo with he | hin
  · rw [he]
  · rw [List.mem_map] at hin
    obtain ⟨mo0, h0, he⟩ := hin
    rw [← he]
    exact h mo0 h0

theorem foldAdd (paths : List (String × PathItem)) (path : String) (op : Operation)
    (hf : FreshPath paths path) :
    ∀ ms : List String, ms.Nodup → ∀ pi : PathItem,
      (∀ m ∈ ms, pi.methods.any (fun mo => mo.1 == m) = false) →
      (∀ mo ∈ pi.methods, mo.2.responses = op.responses) →
      ∃ item, ms.foldl (fun ps m => addOperation ps path m op) (paths ++ [(path, pi)]) =
          paths ++ [(path, item)] ∧
        item.methods.map Prod.fst = pi.methods.map Prod.fst ++ ms ∧
        ∀ mo ∈ item.methods, mo.2.responses = op.responses := by
  intro ms
  induction ms with
  | nil =>
      intro _ pi _ hr
      exact ⟨pi, by simp, by simp, hr⟩
  | cons m rest ih =>
      intro hnd pi hd hr
      rw [List.foldl_cons, addOperation_existing paths path m op pi hf]
      have hd1 : pi.methods.any (fun mo => mo.1 == m) = false := hd m (List.mem_cons_self _ _)
      have hkeys := addToItem_keys pi m op hd1
      have hresp := addToItem_responses pi m op hr
      have hmem := (List.nodup_cons.mp hnd).1
      have hd2 : ∀ m2 ∈ rest, (addToItem pi m op).methods.any (fun mo => mo.1 == m2) = false := by
        intro m2 hm2
        rw [← Bool.not_eq_true, List.any_eq_true]
        rintro ⟨mo, hmo, hbe⟩
        rw [beq_iff_eq] at hbe
        have hkm : mo.1 ∈ (addToItem pi m op).methods.map Prod.fst := List.mem_map_of_mem _ hmo
        rw [hkeys] at hkm
        rcases List.mem_append.mp hkm with hin | hin
        · have hda := hd m2 (List.mem_cons_of_mem _ hm2)
          rw [← Bool.not_eq_true, List.any_eq_true] at hda
          apply hda
          rw [List.mem_map] at hin
          obtain ⟨mo0, h0, he0⟩ := hin
          exact ⟨mo0, h0, by rw [beq_iff_eq, he0, hbe]⟩
        · rw [List.mem_singleton] at hin
          exact hmem (by rw [← hbe, hin] at hm2; exact hm2)
      obtain ⟨item, he, hk, hresp2⟩ := ih (List.Nodup.of_cons hnd) (addToItem pi m op) hd2 hresp
      refine ⟨item, he, ?_, hresp2⟩
      rw [hk, hkeys, List.append_assoc, List.singleton_append]

theorem registerRoute_none_spec (paths : List (String × PathItem)) (path : String)
    (op : Operation) (h : FreshPath paths path) :
    ∃ item, (registerRoute paths path none op).lookup path = some item ∧
      item.methods.map Prod.fst = allMethods ∧
      ∀ mo ∈ item.methods, mo.2.responses = op.responses := by
  have e : registerRoute paths path none op =
      allMethods.foldl (fun ps m => addOperation ps path m op) paths := rfl
  rw [e]
  have e2 : allMethods = "delete" :: ["get", "head", "options", "patch", "post", "put"] := rfl
  rw [e2, List.foldl_cons, addOperation_fresh paths path "delete" op h]
  obtain ⟨item, he, hk, hr⟩ := foldAdd paths path op h
    ["get", "head", "options", "patch", "post", "put"] (by decide)
    { shared := op.params, methods := [("delete", { op with params := [] })] }
    (by intro m hm; fin_cases hm <;> rfl)
    (by intro mo hmo; rw [List.mem_singleton] at hmo; rw [hmo])
  refine ⟨item, ?_, ?_, hr⟩
  · rw [he]
    exact lookup_append_right paths path item h
  · rw [hk]
    rfl


theorem expandFields_spec (loc : String) (fields : List (String × TypeDescriptor))
    (reg : Registry) :
    ((expandFields loc fields reg).1.map Param.name = fields.map Prod.fst) ∧
    ((expandFields loc fields reg).1.map Param.required = fields.map (fun f => !isOptional f.2)) ∧
    ∀ p ∈ (expandFields loc fields reg).1, p.location = loc ∧ p.schema = none := by
  induction fields generalizing reg with
  | nil =>
      refine ⟨rfl, rfl, ?_⟩
      intro p hp
      simp [expandFields] at hp
  | cons f rest ih =>
      have e : expandFields loc (f :: rest) reg =
          (flattenParam loc f.1 (!isOptional f.2) (translate f.2 reg).1 ::
              (expandFields loc rest (translate f.2 reg).2).1,
            (expandFields loc rest (translate f.2 reg).2).2) := rfl
      rw [e]
      obtain ⟨ih1, ih2, ih3⟩ := ih ((translate f.2 reg).2)
      refine ⟨by simp [flattenParam, ih1], by simp [flattenParam, ih2], ?_⟩
      intro p hp
      rcases List.mem_cons.mp hp with hp | hp
      · rw [hp]
        exact ⟨rfl, rfl⟩
      · exact ih3 p hp

/-- C1: for every named type identity used by any number of operations in
one app build, the emitted document's definitions table contains exactly
one entry for that identity, and every use site in paths (body
parameters, response schemas) refers to it via a `$ref` of the form
`#/definitions/<name>` rather than an inline copy.  Generally, a
registered identity translates to its `$ref` without touching the
registry again, and translation keeps definition names unique; in the
`test_simple_app` build, `Pet` is used by eight registered operations yet
`definitions` is exactly `[Pet]`, every body parameter carries the
`$ref`, every method's own parameter list is empty, and all ten
responses carry the `$ref`. -/
theorem C1_dedup_single_definition :
    (∀ name fields reg, hasDef reg name = true →
      translate (.structOf name fields) reg = (refSchema name, reg)) ∧
    (∀ t reg, RegOk reg → RegOk (translate t reg).2) ∧
    defNames simpleApp.reg.defs = ["Pet"] ∧
    simpleApp.paths.map (fun pe => pe.2.shared.map Param.schema) =
      [[some (refSchema "Pet")], [some (refSchema "Pet")], [some (refSchema "Pet")], []] ∧
    simpleApp.paths.map (fun pe => pe.2.methods.map (fun mo => mo.2.params)) =
      [[[]], [[]], [[]], List.replicate 7 []] ∧
    simpleApp.paths.map (fun pe => pe.2.methods.map (fun mo => mo.2.responses)) =
      [[[("200", refSchema "Pet")]], [[("200", refSchema "Pet")]], [[("200", refSchema "Pet")]],
        List.replicate 7 [("200", refSchema "Pet")]] := by
  refine ⟨?_, ?_, rfl, rfl, rfl, rfl⟩
  · intro name fields reg h
    exact translate_struct_hit name fields reg (by rw [h]; rfl)
  · intro t reg h
    exact (translate_ok t reg h).2.2

/-- Witness for C1: the registered `Pet` identity of the finished
`test_simple_app` registry deduplicates, and translating `Pet` from the
empty registry preserves name uniqueness. -/
theorem C1_dedup_single_definition_witness :
    translate (.structOf "Pet" []) simpleApp.reg = (refSchema "Pet", simpleApp.reg) ∧
    RegOk (translate petDesc emptyRegistry).2 :=
  ⟨C1_dedup_single_definition.1 "Pet" [] simpleApp.reg rfl,
    C1_dedup_single_definition.2.1 petDesc emptyRegistry
      (by simp [RegOk, defNames, emptyRegistry])⟩

/-- C2: for every struct-like named type, the translated schema has a
properties map containing an entry for each field, and its required list
contains exactly the names of the fields whose type is not Optional; a
field of type `Optional<T>` translates to the same schema as `T`, its
optionality recorded only by omission from `required` (the schema model
has no nullable marker at all).  Concretely, the `Pet` entry of the
`test_simple_app` registry holds all five properties and
`required = [class, name]`. -/
theorem C2_struct_properties_required :
    (∀ name fields reg, RegOk reg → hasDef reg name = false →
      reg.inProgress.contains name = false →
      ∃ body, ((translate (.structOf name fields) reg).2.defs).lookup name = some body ∧
        (body.properties.map Prod.fst).Perm (fields.map Prod.fst) ∧
        body.required.Perm ((fields.filter (fun f => !isOptional f.2)).map Prod.fst)) ∧
    (∀ t reg, translate (.optional t) reg = translate t reg) ∧
    simpleApp.reg.defs.lookup "Pet" = some petBody ∧
    petBody.properties.map Prod.fst = ["class", "id", "name", "uid", "updated"] ∧
    petBody.required = ["class", "name"] := by
  refine ⟨?_, fun t reg => rfl, rfl, rfl, rfl⟩
  intro name fields reg h1 h2 h3
  refine ⟨_, translate_registers_body name fields reg h1 h2 h3, ?_, ?_⟩
  · have e : (objSchema (sortProps (translateFields fields ⟨reg.defs, name :: reg.inProgress⟩).1)
        (requiredOf fields)).properties =
        sortProps (translateFields fields ⟨reg.defs, name :: reg.inProgress⟩).1 := rfl
    rw [e]
    have hp := (sortBy_perm (fun a b => strLe a.1 b.1)
      (translateFields fields ⟨reg.defs, name :: reg.inProgress⟩).1).map Prod.fst
    rwa [translateFields_names] at hp
  · have e : (objSchema (sortProps (translateFields fields ⟨reg.defs, name :: reg.inProgress⟩).1)
        (requiredOf fields)).required = requiredOf fields := rfl
    rw [e]
    exact sortBy_perm strLe _

/-- Witness for C2: translating `Pet` from the empty registry registers a
body whose property names are a permutation of the declared field names
and whose required list is a permutation of the non-optional field
names. -/
theorem C2_struct_properties_required_witness :
    ∃ body, ((translate (.structOf "Pet" petFields) emptyRegistry).2.defs).lookup "Pet" =
        some body ∧
      (body.properties.map Prod.fst).Perm (petFields.map Prod.fst) ∧
      body.required.Perm ((petFields.filter (fun f => !isOptional f.2)).map Prod.fst) :=
  C2_struct_properties_required.1 "Pet" petFields emptyRegistry
    (by simp [RegOk, defNames, emptyRegistry]) rfl rfl

/-- C3: for every struct-typed path or query parameter binding, the
struct is expanded so each field becomes its own top-level parameter
with the location inherited from the binding's source and the required
flag set exactly when the field is not Optional; no nested object
parameter appears (every expanded parameter is inline, with no schema).
In particular the `KnownResourceBadge` path struct bound to
`/v1/{resource}/v/{name}` yields two required string path parameters
named `resource` and `name`, as the emitted `test_params` path item
shows. -/
theorem C3_struct_param_expansion :
    (∀ ph nm fields reg,
      (buildParams ph .path (.structOf nm fields) reg).1.map Param.name = fields.map Prod.fst ∧
      (buildParams ph .path (.structOf nm fields) reg).1.map Param.required =
        fields.map (fun f => !isOptional f.2) ∧
      ∀ p ∈ (buildParams ph .path (.structOf nm fields) reg).1,
        p.location = "path" ∧ p.schema = none) ∧
    (∀ ph nm fields reg,
      (buildParams ph .query (.structOf nm fields) reg).1.map Param.name = fields.map Prod.fst ∧
      (buildParams ph .query (.structOf nm fields) reg).1.map Param.required =
        fields.map (fun f => !isOptional f.2) ∧
      ∀ p ∈ (buildParams ph .query (.structOf nm fields) reg).1,
        p.location = "query" ∧ p.schema = none) ∧
    buildParams ["resource", "name"] .path knownResourceBadgeDesc emptyRegistry =
      ([pathStrParam "resource", pathStrParam "name"], emptyRegistry) ∧
    ((snapshotPaths paramsApp).lookup "/api/v1/{resource}/v/{name}").map (fun pi => pi.shared) =
      some [colorParam, pathStrParam "name", resParam, pathStrParam "resource"] := by
  refine ⟨?_, ?_, rfl, rfl⟩
  · intro ph nm fields reg
    exact expandFields_spec "path" fields reg
  · intro ph nm fields reg
    exact expandFields_spec "query" fields reg

/-- Witness for C3: the expansion facts evaluated on the
`KnownResourceBadge` fields. -/
theorem C3_struct_param_expansion_witness :
    (buildParams ["resource", "name"] .path (.structOf "KnownResourceBadge" krbFields)
        emptyRegistry).1.map Param.name = krbFields.map Prod.fst ∧
    (buildParams ["resource", "name"] .path (.structOf "KnownResourceBadge" krbFields)
        emptyRegistry).1.map Param.required = krbFields.map (fun f => !isOptional f.2) :=
  ⟨(C3_struct_param_expansion.1 ["resource", "name"] "KnownResourceBadge" krbFields
      emptyRegistry).1,
    (C3_struct_param_expansion.1 ["resource", "name"] "KnownResourceBadge" krbFields
      emptyRegistry).2.1⟩

/-- C4: when several operations are registered on the same path, the
parameters (identified by location, name and type) common to all of
those operations appear exactly once in the path-item-level shared list
(merging never duplicates a key and never invents one: each shared
parameter's key comes from the previous shared list and is declared by
the new operation), and never also in a method's own list; a parameter
declared by only some methods appears only in those methods' own lists,
as the emitted `test_params` item for `/api/v2/{resource}/v/{name}`
(where `res` and `color` sit only under `get`) and the spec's `/x/{id}`
example show. -/
theorem C4_shared_param_hoisting :
    (∀ pi m op, ItemOk pi → ItemOk (addToItem pi m op)) ∧
    (∀ pi m op, (pi.shared.map pkey).Nodup → ((addToItem pi m op).shared.map pkey).Nodup) ∧
    (∀ pi m op q, q ∈ (addToItem pi m op).shared →
      (∃ q0 ∈ pi.shared, pkey q = pkey q0) ∧ ∃ r ∈ op.params, pkey r = pkey q) ∧
    xPaths = [("/x/{id}",
      { shared := [idPathParam, qQueryParam],
        methods := [("get", { params := [], responses := [] }),
                    ("post", { params := [], responses := [] })] })] ∧
    (snapshotPaths paramsApp).lookup "/api/v2/{resource}/v/{name}" =
      some { shared := [pathStrParam "name", pathStrParam "resource"],
             methods := [("get", { params := [colorParam, resParam], responses := [] }),
                         ("post", { params := [bodyRefParam "BadgeBody"], responses := [] })] } := by
  refine ⟨addToItem_ok, addToItem_shared_nodup, ?_, rfl, rfl⟩
  intro pi m op q hq
  rw [addToItem_shared_eq] at hq
  obtain ⟨q0, hq0s, hqk, hq0m⟩ := mem_intersectShared _ _ _ hq
  obtain ⟨r, hr, hre⟩ := (keyMem_iff _ _).mp hq0m
  exact ⟨⟨q0, hq0s, hqk⟩, r, hr, by rw [hre, ← hqk]⟩

/-- Witness for C4: merging a second method into the `/x/{id}` item
keeps the two levels disjoint and the shared keys unique. -/
theorem C4_shared_param_hoisting_witness :
    ItemOk (addToItem ⟨[idPathParam, qQueryParam], [("get", ⟨[], []⟩)]⟩ "post" xOp) ∧
    ((addToItem ⟨[idPathParam, qQueryParam], [("get", ⟨[], []⟩)]⟩ "post" xOp).shared.map
      pkey).Nodup :=
  ⟨C4_shared_param_hoisting.1 ⟨[idPathParam, qQueryParam], [("get", ⟨[], []⟩)]⟩ "post" xOp
      (by
        intro mo hmo p hp q hq
        rw [List.mem_singleton] at hmo
        rw [hmo] at hp
        simp at hp),
    C4_shared_param_hoisting.2.1 ⟨[idPathParam, qQueryParam], [("get", ⟨[], []⟩)]⟩ "post" xOp
      (by
        have e : ([idPathParam, qQueryParam].map pkey) = [pkey idPathParam, pkey qQueryParam] :=
          rfl
        rw [e]
        refine List.nodup_cons.mpr ⟨?_, List.nodup_singleton _⟩
        rw [List.mem_singleton]
        intro h
        have h1 : ("path" : String) = "query" := congrArg (fun k => k.1) h
        exact absurd h1 (by decide))⟩

/-- C5: `Array(element)` translates to `type: array` with
`items = translate(element)` and `Map(value)` to `type: object` with
`additionalProperties = translate(value)`; concretely, the `Vec<Pet>`
handler of `test_list_in_out` yields the array-of-`$ref` response and
the `BTreeMap<String, Image>` handler of `test_map_in_out` yields the
`additionalProperties` `$ref` response. -/
theorem C5_array_map_wrapping :
    (∀ t reg, translate (.array t) reg = (arraySchema (translate t reg).1, (translate t reg).2)) ∧
    (∀ t reg, translate (.mapOf t) reg = (mapSchema (translate t reg).1, (translate t reg).2)) ∧
    (listApp.paths.lookup "/pets").map (fun pi => pi.methods.map (fun mo => mo.2.responses)) =
      some [[("200", arraySchema (refSchema "Pet"))]] ∧
    (mapApp.paths.lookup "/images").map (fun pi => pi.methods.map (fun mo => mo.2.responses)) =
      some [[("200", mapSchema (refSchema "Image"))]] :=
  ⟨fun t reg => rfl, fun t reg => rfl, rfl, rfl⟩

/-- Witness for C5: the wrapping equations evaluated at `Pet` and
`Image`. -/
theorem C5_array_map_wrapping_witness :
    translate (.array petDesc) emptyRegistry =
      (arraySchema (translate petDesc emptyRegistry).1, (translate petDesc emptyRegistry).2) ∧
    translate (.mapOf imageDesc) emptyRegistry =
      (mapSchema (translate imageDesc emptyRegistry).1, (translate imageDesc emptyRegistry).2) :=
  ⟨C5_array_map_wrapping.1 petDesc emptyRegistry,
    C5_array_map_wrapping.2.1 imageDesc emptyRegistry⟩

/-- C6: every unsupported or free-form type shape (arbitrary JSON or
YAML values used as struct fields, opaque markers) translates to the
empty "any" schema `{}` with no type, and never makes the build fail:
translation is total, and the `test_params` build containing such fields
completes with its full three-path document and the `BadgeBody`
definition whose two free-form properties are both `{}` and not
required. -/
theorem C6_any_schema_fallback :
    (∀ reg, translate .anyValue reg = (emptySchema, reg)) ∧
    (∀ reg, translate .emptyMarker reg = (emptySchema, reg)) ∧
    emptySchema.ty = none ∧
    paramsApp.reg.defs.lookup "BadgeBody" = some badgeBodyNode ∧
    badgeBodyNode = objSchema [("json", emptySchema), ("yaml", emptySchema)] [] ∧
    paramsApp.paths.map Prod.fst =
      ["/api/v1/{resource}/v/{name}", "/api/v2/{resource}/v/{name}", "/api/v2/{resource}"] :=
  ⟨fun reg => rfl, fun reg => rfl, rfl, rfl, rfl, rfl⟩

/-- Witness for C6: the fallback equation evaluated at the empty
registry. -/
theorem C6_any_schema_fallback_witness :
    translate .anyValue emptyRegistry = (emptySchema, emptyRegistry) :=
  C6_any_schema_fallback.1 emptyRegistry

/-- C7: an operation whose handler declares no schema-bearing return
type gets an empty responses block, and one whose handler does declare a
schema-bearing return type gets the single `200` entry carrying that
schema; the `test_impl_traits` build shows three opaque `impl Responder`
handlers with `{}` responses and the `Vec<Pet>` handler with its `200`
array response. -/
theorem C7_opaque_empty_responses :
    (∀ ph bs reg, (buildOperation ph bs none reg).1.responses = []) ∧
    (∀ ph bs t reg, (buildOperation ph bs (some t) reg).1.responses =
      [("200", (translate t (buildParamsAll ph bs reg).2).1)]) ∧
    implApp.paths.map (fun pe => (pe.1, pe.2.methods.map (fun mo => (mo.1, mo.2.responses)))) =
      [("/", [("get", [])]),
       ("/pets", [("get", [("200", arraySchema (refSchema "Pet"))])]),
       ("/pet", [("get", [])]),
       ("/pet_async", [("get", [])])] :=
  ⟨fun ph bs reg => rfl, fun ph bs t reg => rfl, rfl⟩

/-- Witness for C7: the empty-responses equation evaluated at a bare
operation. -/
theorem C7_opaque_empty_responses_witness :
    (buildOperation [] [] none emptyRegistry).1.responses = [] :=
  C7_opaque_empty_responses.1 [] [] emptyRegistry

/-- C8: a string-typed field translates to `type: string` with no
format, a date/time value to `format: date-time`, a UUID value to
`format: uuid`; integer types get `type: integer` with `format` chosen
purely by bit width (signedness never changes the result): `int32` up to
32 bits, `int64` above, so `u64` gets `int64` and `u16` gets `int32`. -/
theorem C8_primitive_formats :
    (∀ reg, translate .str reg = (primSchema "string" none, reg)) ∧
    (∀ reg, translate .datetime reg = (primSchema "string" (some "date-time"), reg)) ∧
    (∀ reg, translate .uuid reg = (primSchema "string" (some "uuid"), reg)) ∧
    (∀ sg sg2 bits reg, translate (.int sg bits) reg = translate (.int sg2 bits) reg) ∧
    (∀ sg bits reg, translate (.int sg bits) reg =
      (primSchema "integer" (some (if bits ≤ 32 then "int32" else "int64")), reg)) ∧
    (translate (.int false 64) emptyRegistry).1 = primSchema "integer" (some "int64") ∧
    (translate (.int false 16) emptyRegistry).1 = primSchema "integer" (some "int32") :=
  ⟨fun reg => rfl, fun reg => rfl, fun reg => rfl, fun sg sg2 bits reg => rfl,
    fun sg bits reg => rfl, rfl, rfl⟩

/-- Witness for C8: signedness-independence evaluated at 64 bits. -/
theorem C8_primitive_formats_witness :
    translate (.int true 64) emptyRegistry = translate (.int false 64) emptyRegistry :=
  C8_primitive_formats.2.2.2.1 true false 64 emptyRegistry

/-- C9: a route registered without an explicit HTTP method filter yields
a path item containing exactly the seven operations delete, get, head,
options, patch, post and put, each carrying the same responses mapping
derived from the single handler; concretely, `/api/random` of
`test_simple_app` carries the `Pet` `200` response under all seven
methods. -/
theorem C9_unfiltered_seven_methods :
    (∀ paths path op, FreshPath paths path →
      ∃ item, (registerRoute paths path none op).lookup path = some item ∧
        item.methods.map Prod.fst = allMethods ∧
        ∀ mo ∈ item.methods, mo.2.responses = op.responses) ∧
    (simpleApp.paths.lookup "/api/random").map
        (fun pi => pi.methods.map (fun mo => (mo.1, mo.2.responses))) =
      some (allMethods.map (fun m => (m, [("200", refSchema "Pet")]))) :=
  ⟨registerRoute_none_spec, rfl⟩

/-- Witness for C9: an unfiltered registration into the empty paths
table produces exactly the seven methods. -/
theorem C9_unfiltered_seven_methods_witness :
    ∃ item,
      (registerRoute [] "/api/random" none ⟨[], [("200", refSchema "Pet")]⟩).lookup
        "/api/random" = some item ∧
      item.methods.map Prod.fst = allMethods ∧
      ∀ mo ∈ item.methods, mo.2.responses = [("200", refSchema "Pet")] :=
  C9_unfiltered_seven_methods.1 [] "/api/random" ⟨[], [("200", refSchema "Pet")]⟩
    (fun pe hpe => absurd hpe (List.not_mem_nil pe))

/-- C10: a single-field tuple struct (newtype wrapper such as
`ImageId(u64)`) is translated transparently to its inner type's schema
wherever it is used and is never registered as its own definitions
entry: the `test_map_in_out` build holds exactly the `Image` definition,
whose `id` property is the plain int64 integer schema. -/
theorem C10_newtype_transparent :
    (∀ nm t reg, translate (.newtype nm t) reg = translate t reg) ∧
    defNames mapApp.reg.defs = ["Image"] ∧
    mapApp.reg.defs.lookup "Image" = some imageBody ∧
    imageBody.properties.lookup "id" = some (primSchema "integer" (some "int64")) :=
  ⟨fun nm t reg => rfl, rfl, rfl, rfl⟩

/-- Witness for C10: the transparency equation evaluated at
`ImageId(u64)`. -/
theorem C10_newtype_transparent_witness :
    translate (.newtype "ImageId" (.int false 64)) emptyRegistry =
      translate (.int false 64) emptyRegistry :=
  C10_newtype_transparent.1 "ImageId" (.int false 64) emptyRegistry

end Paperclip
